import Mathlib

/-
Shallow embedding of the core of the `command_organiser` repository:
the storage layer (`src/storage/command_storage.rs`), the command service
(`src/service/command_service.rs`) and the navigation state machine
(`src/ui/app.rs` together with the event handler of `src/ui/tui.rs`).

Fallible Rust code is modelled with `Except`/`Option`.  A Rust panic
(`unwrap` on `None`, indexing a missing `HashMap` key, `%` by zero, or a
`usize` subtraction overflowing) is modelled as `none`: the operation does
not complete and yields no state.
-/

/-- The Command record of `src/model/command.rs`: alias, executable, full
command text and optional description. -/
structure Command where
  «alias» : String
  executable : String
  command : String
  description : Option String
deriving DecidableEq, Repr

/-- Splitting a character list at every character satisfying `p`, keeping
empty pieces, exactly as Rust's `str::split` does: the result always has at
least one piece, and the empty input yields one empty piece. -/
def splitCharList (p : Char → Bool) : List Char → List (List Char)
  | [] => [[]]
  | c :: cs =>
    if p c then [] :: splitCharList p cs
    else
      match splitCharList p cs with
      | [] => [[c]]
      | t :: ts => (c :: t) :: ts

/-- Rust `command.split(' ').collect::<Vec<&str>>()` as used by the
service layer: split on every single space character, keeping empty
substrings. -/
def splitOnSpace (s : String) : List String :=
  (splitCharList (fun c => c = ' ') s.data).map (fun l => String.mk l)

/-- Modelled from the spec: the first whitespace-delimited token of a string,
that is, the first maximal non-empty run of non-whitespace characters; `none`
when the string holds no such token.  This is the spec's wording for how the
`executable` field is derived, kept separate so it can be compared with what
the source computes (`splitOnSpace`). -/
def firstWhitespaceToken (s : String) : Option String :=
  (((splitCharList (fun c => c.isWhitespace) s.data).map
      (fun l => String.mk l)).filter (fun t => t ≠ "")).head?

/-- The sqlx error causes relevant to the embedded operations: a UNIQUE
constraint violation (naming the column) reported by SQLite on INSERT, or
`fetch_one` finding no matching row. -/
inductive SqlxError where
  | uniqueViolation (column : String)
  | rowNotFound
deriving DecidableEq, Repr

/-- The error type of `src/storage/command_storage.rs`: a single variant
wrapping the underlying sqlx cause. -/
inductive CommandStorageError where
  | openConnection (cause : SqlxError)
deriving DecidableEq, Repr

/-- The contents of the `commands` table, rows in insertion order (SQLite's
natural scan order for this table, which has no surrogate key). -/
abbrev Store := List Command

/-- The INSERT of `CommandStorageManager::insert_command` against the schema
of `db_setup`: the `commands` table declares UNIQUE on each of `command`,
`executable` and `alias`, so the row is appended only when none of the three
values is already present; otherwise SQLite rejects the statement and the
table is unchanged. -/
def CommandStorageManager.insert_command (s : Store) (c : Command) :
    Except CommandStorageError Store :=
  if s.any (fun r => r.command == c.command) then
    .error (.openConnection (.uniqueViolation "command"))
  else if s.any (fun r => r.executable == c.executable) then
    .error (.openConnection (.uniqueViolation "executable"))
  else if s.any (fun r => r.«alias» == c.«alias») then
    .error (.openConnection (.uniqueViolation "alias"))
  else
    .ok (s ++ [c])

/-- The `fetch_one` of `CommandStorageManager::get_command`: SELECT the first
row whose `command` column equals the probe's `command` text; sqlx reports
`RowNotFound` when no row matches. -/
def CommandStorageManager.get_command (s : Store) (c : Command) :
    Except CommandStorageError Command :=
  match s.find? (fun r => r.command == c.command) with
  | some r => .ok r
  | none => .error (.openConnection .rowNotFound)

/-- DELETE of `CommandStorageManager::delete_command`: remove every row whose
`command` column equals the probe's `command` text; succeeds even when no row
matched. -/
def CommandStorageManager.delete_command (s : Store) (c : Command) :
    Except CommandStorageError Store :=
  .ok (s.filter (fun r => !(r.command == c.command)))

/-- SELECT * of `CommandStorageManager::get_all_commands`: every stored row,
in scan order; an empty store yields an empty sequence, not an error. -/
def CommandStorageManager.get_all_commands (s : Store) :
    Except CommandStorageError (List Command) :=
  .ok s

/-- The error type of `src/service/command_service.rs`. -/
inductive CommandServiceError where
  | storageManagerConstruction (e : CommandStorageError)
  | storageManagerInsertCommand (e : CommandStorageError)
  | storageManagerGetAll (e : CommandStorageError)
  | storageManagerGetCommand (e : CommandStorageError)
  | storageManagerDeleteCommand (e : CommandStorageError)
  | noExecutable
deriving DecidableEq, Repr

/-- `CommandService::insert_command`: derive `executable` as the first element
of `command.split(' ')` (`.first().ok_or(NoExecutable)`), build the `Command`,
delegate to the storage manager wrapping its error; a successful call returns
the new table contents together with the constructed command. -/
def CommandService.insert_command (s : Store) (command aliasArg : String)
    (description : Option String) :
    Except CommandServiceError (Store × Command) :=
  match (splitOnSpace command).head? with
  | none => .error .noExecutable
  | some executable =>
    let c : Command :=
      { «alias» := aliasArg, executable := executable,
        command := command, description := description }
    match CommandStorageManager.insert_command s c with
    | .error e => .error (.storageManagerInsertCommand e)
    | .ok s2 => .ok (s2, c)

/-- `CommandService::get_command`: re-derive `executable` the same way, build
a probe `Command` with empty description, and delegate to the storage
manager's exact-match lookup, wrapping its error. -/
def CommandService.get_command (s : Store) (command aliasArg : String) :
    Except CommandServiceError Command :=
  match (splitOnSpace command).head? with
  | none => .error .noExecutable
  | some executable =>
    let c : Command :=
      { «alias» := aliasArg, executable := executable,
        command := command, description := none }
    match CommandStorageManager.get_command s c with
    | .error e => .error (.storageManagerGetCommand e)
    | .ok r => .ok r

/-- `CommandService::delete_command`: same derivation and delegation pattern
as insert, targeting deletion; returns the new table contents together with
the command value it built. -/
def CommandService.delete_command (s : Store) (command aliasArg : String)
    (description : Option String) :
    Except CommandServiceError (Store × Command) :=
  match (splitOnSpace command).head? with
  | none => .error .noExecutable
  | some executable =>
    let c : Command :=
      { «alias» := aliasArg, executable := executable,
        command := command, description := description }
    match CommandStorageManager.delete_command s c with
    | .error e => .error (.storageManagerDeleteCommand e)
    | .ok s2 => .ok (s2, c)

/-- The table contents after a `CommandService::insert_command` call: the new
contents on success, the unchanged contents when the call fails (a rejected
INSERT leaves the table as it was). -/
def storeAfterInsert (s : Store) (command aliasArg : String)
    (description : Option String) : Store :=
  match CommandService.insert_command s command aliasArg description with
  | .ok (s2, _) => s2
  | .error _ => s

/-- The TabState of `src/ui/app.rs`: the ordered tab titles and the index of
the active tab. -/
structure TabState where
  titles : List String
  index : Nat
deriving DecidableEq, Repr

/-- Rust `TabState::next`: `index = (index + 1) % titles.len()`.  With zero
titles the `%` is a remainder by zero, which panics in Rust; modelled as
`none`. -/
def TabState.next (t : TabState) : Option TabState :=
  if t.titles.length = 0 then none
  else some { t with index := (t.index + 1) % t.titles.length }

/-- Rust `TabState::previous`: decrement the index, wrapping from 0 to
`titles.len() - 1`.  With zero titles and index 0 the `usize` subtraction
`titles.len() - 1` overflows, a panic; modelled as `none`. -/
def TabState.previous (t : TabState) : Option TabState :=
  if t.index > 0 then some { t with index := t.index - 1 }
  else if t.titles.length = 0 then none
  else some { t with index := t.titles.length - 1 }

/-- The StatefulList of `src/ui/app.rs`: the `ListState` selection (the
`selected()` index, `none` when nothing is selected, as after
`ListState::default()`) and the grouping `HashMap<String, Vec<T>>`.  The
map's key-to-value content is modelled as an association list; nothing below
depends on the order of its entries except where that order is explicitly a
parameter (see `tabTitlesWithOrder`). -/
structure StatefulList (T : Type) where
  selected : Option Nat
  items : List (String × List T)
deriving DecidableEq, Repr

/-- Content of the `HashMap` indexing `self.items[key]`: the value stored at
`key`, or `none` where Rust's `Index` impl would panic on a missing key. -/
def assocLookup {T : Type} (items : List (String × List T)) (key : String) :
    Option (List T) :=
  (items.find? (fun kv => kv.1 == key)).map (fun kv => kv.2)

/-- Rust `StatefulList::next`: when nothing is selected, select index 0
without touching the item lists; when `i` is selected, look up the active
tab's list (panic if the key is missing) and move to `i + 1`, wrapping to 0
from the end.  On an empty list `items.len() - 1` overflows `usize`, a
panic; modelled as `none`. -/
def StatefulList.next {T : Type} (l : StatefulList T) (tab : String) :
    Option (StatefulList T) :=
  match l.selected with
  | none => some { l with selected := some 0 }
  | some i =>
    match assocLookup l.items tab with
    | none => none
    | some items =>
      if items.length = 0 then none
      else if i ≥ items.length - 1 then some { l with selected := some 0 }
      else some { l with selected := some (i + 1) }

/-- Rust `StatefulList::previous`: when nothing is selected, select index 0
without touching the item lists; when `i` is selected, move to `i - 1`,
wrapping from 0 to `items.len() - 1` (which overflows on an empty list, a
panic; modelled as `none`). -/
def StatefulList.previous {T : Type} (l : StatefulList T) (tab : String) :
    Option (StatefulList T) :=
  match l.selected with
  | none => some { l with selected := some 0 }
  | some i =>
    match assocLookup l.items tab with
    | none => none
    | some items =>
      if i = 0 then
        if items.length = 0 then none
        else some { l with selected := some (items.length - 1) }
      else some { l with selected := some (i - 1) }

/-- Rust `StatefulList::selected_index`: the selected index, 0 when nothing
is selected. -/
def StatefulList.selected_index {T : Type} (l : StatefulList T) : Nat :=
  (l.selected).getD 0

/-- The App of `src/ui/app.rs`: the grouped command list with its selection,
and the tab state. -/
structure App where
  commands : StatefulList Command
  tabs : TabState
deriving DecidableEq, Repr

/-- One step of the grouping loop in `App::new`:
`commands.entry(command.executable).or_insert(Vec::new()).push(command)` —
push onto the entry for the command's executable, or add a fresh entry
holding just this command. -/
def insertGroup (groups : List (String × List Command)) (c : Command) :
    List (String × List Command) :=
  match groups with
  | [] => [(c.executable, [c])]
  | (k, l) :: rest =>
    if k = c.executable then (k, l ++ [c]) :: rest
    else (k, l) :: insertGroup rest c

/-- The grouping map built by `App::new` from the `get_all_commands()`
result: the `HashMap` content, each value in insertion order.  The
association list lists keys in first-seen order purely as a canonical
representation of the unordered map content. -/
def groupByExec (cmds : List Command) : List (String × List Command) :=
  cmds.foldl insertGroup []

/-- In `App::new`, `tabs = TabState::new(commands.keys().cloned().collect())`.
The iteration order of `std::collections::HashMap` keys is unspecified
(seed-randomized per process), so the title list is the key set enumerated by
an environment-chosen ordering `ord`. -/
def tabTitlesWithOrder (ord : List String → List String)
    (cmds : List Command) : List String :=
  ord ((groupByExec cmds).map (fun kv => kv.1))

/-- Rust `App::get_selected_executable`:
`self.tabs.titles.get(self.tabs.index).unwrap()`; the `unwrap` panics when
the index is out of range (in particular with zero tabs), modelled `none`. -/
def App.get_selected_executable (a : App) : Option String :=
  a.tabs.titles.get? a.tabs.index

/-- Rust `App::get_selected_command`: take the selected executable, the
`selected_index()` (0 when nothing is selected), and
`self.commands.items[&executable].get(index).unwrap()`; every panic along
the way (missing tab title, missing map key, index out of range) is
modelled as `none`. -/
def App.get_selected_command (a : App) : Option Command :=
  match a.get_selected_executable with
  | none => none
  | some executable =>
    match assocLookup a.commands.items executable with
    | none => none
    | some items => items.get? a.commands.selected_index

/-- The four navigation key events handled by `run_app` in `src/ui/tui.rs`. -/
inductive AppEvent where
  | right
  | left
  | down
  | up
deriving DecidableEq, Repr

/-- One iteration of the `run_app` event handler for a navigation key:
Right/Left first cycle the tabs (a panic there, e.g. with zero tabs, aborts
the step) and then reset the list selection to `ListState::default()`
(nothing selected); Down/Up `unwrap` the active tab title and move within
the active tab's list. -/
def runAppStep (a : App) (e : AppEvent) : Option App :=
  match e with
  | .right =>
    (a.tabs.next).map (fun t =>
      { a with tabs := t, commands := { a.commands with selected := none } })
  | .left =>
    (a.tabs.previous).map (fun t =>
      { a with tabs := t, commands := { a.commands with selected := none } })
  | .down =>
    match a.tabs.titles.get? a.tabs.index with
    | none => none
    | some tab => (a.commands.next tab).map (fun l => { a with commands := l })
  | .up =>
    match a.tabs.titles.get? a.tabs.index with
    | none => none
    | some tab =>
      (a.commands.previous tab).map (fun l => { a with commands := l })

/-- Iterating a fallible transition `n` times, composing through
`Option.bind`: the result exists only if every step completes. -/
def iterOpt {α : Type} (f : α → Option α) : Nat → α → Option α
  | 0, a => some a
  | n + 1, a => (f a).bind (iterOpt f n)

deriving instance DecidableEq for Except

/-- The "git pull" example command of the spec's scenario. -/
def gitPullCmd : Command :=
  { «alias» := "git_pull", executable := "git", command := "git pull",
    description := some "Pulls changes" }

/-- The "ls -a" example command of the spec's scenario. -/
def lsAllCmd : Command :=
  { «alias» := "ls_all", executable := "ls", command := "ls -a",
    description := none }

/-- The "ls ." example command of the spec's scenario. -/
def lsDotCmd : Command :=
  { «alias» := "ls_current", executable := "ls", command := "ls .",
    description := none }

/-- The record the service builds for the raw text " ls": the derived
executable is the empty prefix before the leading space. -/
def c1Cmd : Command :=
  { «alias» := "lsa", executable := "", command := " ls", description := none }

/-- The record the service builds for the empty raw text: the derived
executable is the empty string. -/
def c2Cmd : Command :=
  { «alias» := "x", executable := "", command := "", description := none }

/-- A tab state with zero tabs, as after starting on an empty database. -/
def c4EmptyTabs : TabState := { titles := [], index := 0 }

/-- A stateful list whose only tab has an empty item list and no selection. -/
def c4EmptyList : StatefulList Command :=
  { selected := none, items := [("git", [])] }

/-- The spec's navigation scenario list: an "ls" tab with four items and no
item selected. -/
def c5List : StatefulList Command :=
  { selected := none,
    items := [("ls",
      [{ «alias» := "a1", executable := "ls", command := "ls -a",
         description := none },
       { «alias» := "a2", executable := "ls", command := "ls -l",
         description := none },
       { «alias» := "a3", executable := "ls", command := "ls .",
         description := none },
       { «alias» := "a4", executable := "ls", command := "ls ..",
         description := none }])] }

/-- An app with a single "git" tab holding one command and nothing
selected. -/
def c8App : App :=
  { commands := { selected := none, items := [("git", [gitPullCmd])] },
    tabs := { titles := ["git"], index := 0 } }

/-- Whether a service insert result is the wrapped uniqueness-violation
error coming up from storage. -/
def isUniqueViolation : Except CommandServiceError (Store × Command) → Bool
  | .error (.storageManagerInsertCommand
      (.openConnection (.uniqueViolation _))) => true
  | _ => false

/-- The summed sizes of all the per-executable lists of a grouping map. -/
def groupSizes (g : List (String × List Command)) : Nat :=
  (g.map (fun kv => kv.2.length)).sum

/-- An app on the "git" tab with item 0 selected, two tabs in total. -/
def c3App : App :=
  { commands := { selected := some 0, items := [("git", [gitPullCmd])] },
    tabs := { titles := ["git", "ls"], index := 0 } }

/-- The state reached from `c3App` by the Right (next tab) event. -/
def c3App2 : App :=
  { commands := { selected := none, items := [("git", [gitPullCmd])] },
    tabs := { titles := ["git", "ls"], index := 1 } }

/-- The record the service builds for the raw text "git pull". -/
def c1WitnessCmd : Command :=
  { «alias» := "gp", executable := "git", command := "git pull",
    description := none }

theorem splitCharList_ne_nil (p : Char → Bool) (l : List Char) :
    splitCharList p l ≠ [] := by
  induction l with
  | nil => simp [splitCharList]
  | cons c cs ih =>
    simp only [splitCharList]
    by_cases h : p c
    · simp [h]
    · simp only [h, if_neg]
      rcases hs : splitCharList p cs with _ | ⟨t, ts⟩
      · simp
      · simp

theorem splitOnSpace_head_eq_some (s : String) :
    ∃ e, (splitOnSpace s).head? = some e := by
  rcases h : splitOnSpace s with _ | ⟨e, rest⟩
  · exfalso
    have := splitCharList_ne_nil (fun c => c = ' ') s.data
    simp only [splitOnSpace] at h
    rcases hs : splitCharList (fun c => c = ' ') s.data with _ | _
    · exact this hs
    · rw [hs] at h; simp at h
  · exact ⟨e, by simp⟩

theorem iterOpt_next_eq (ts : List String) :
    ∀ (k i : Nat), i < ts.length →
      iterOpt TabState.next k ⟨ts, i⟩ = some ⟨ts, (i + k) % ts.length⟩ := by
  intro k
  induction k with
  | zero =>
    intro i h
    simp [iterOpt, Nat.mod_eq_of_lt h]
  | succ n ih =>
    intro i h
    have hn : ¬ ts.length = 0 := by omega
    simp only [iterOpt, TabState.next, hn, if_false, Option.some_bind]
    rw [ih ((i + 1) % ts.length) (Nat.mod_lt _ (by omega))]
    congr 2
    rw [Nat.mod_add_mod]
    congr 1
    omega

theorem TabState.previous_eq (ts : List String) (i : Nat) (h : i < ts.length) :
    TabState.previous ⟨ts, i⟩ =
      some ⟨ts, (i + (ts.length - 1)) % ts.length⟩ := by
  simp only [TabState.previous]
  by_cases hi : i > 0
  · rw [if_pos hi]
    congr 2
    have he : i + (ts.length - 1) = (i - 1) + ts.length := by omega
    rw [he, Nat.add_mod_right, Nat.mod_eq_of_lt (by omega)]
  · rw [if_neg hi, if_neg (by omega)]
    congr 2
    have he : i = 0 := by omega
    subst he
    rw [Nat.zero_add, Nat.mod_eq_of_lt (by omega)]

theorem iterOpt_previous_eq (ts : List String) :
    ∀ (k i : Nat), i < ts.length →
      iterOpt TabState.previous k ⟨ts, i⟩ =
        some ⟨ts, (i + k * (ts.length - 1)) % ts.length⟩ := by
  intro k
  induction k with
  | zero =>
    intro i h
    simp [iterOpt, Nat.mod_eq_of_lt h]
  | succ n ih =>
    intro i h
    simp only [iterOpt, TabState.previous_eq ts i h, Option.some_bind]
    rw [ih ((i + (ts.length - 1)) % ts.length) (Nat.mod_lt _ (by omega))]
    congr 2
    rw [Nat.mod_add_mod]
    congr 1
    ring

/-- C3: in the `run_app` event loop, whenever a tab-change event (Right or
Left) completes on any navigation state, the item selection of the resulting
state is "none selected": no item index survives a tab change. -/
theorem c3_tab_change_resets_selection (a a2 : App)
    (h : runAppStep a .right = some a2 ∨ runAppStep a .left = some a2) :
    a2.commands.selected = none := by
  rcases h with h | h <;>
  · simp only [runAppStep, Option.map_eq_some'] at h
    obtain ⟨t, _, rfl⟩ := h
    rfl

theorem c3_tab_change_resets_selection_witness :
    c3App2.commands.selected = none :=
  c3_tab_change_resets_selection c3App c3App2 (Or.inl (by decide))

/-- C9: from any in-range tab index on a non-empty tab list of length n,
n applications of `TabState::next` return to the starting state, and so do
n applications of `TabState::previous`. -/
theorem c9_tab_cycle (t : TabState) (h : t.index < t.titles.length) :
    iterOpt TabState.next t.titles.length t = some t ∧
    iterOpt TabState.previous t.titles.length t = some t := by
  obtain ⟨ts, i⟩ := t
  simp only at h
  constructor
  · rw [iterOpt_next_eq ts ts.length i h]
    congr 2
    rw [Nat.add_mod_right, Nat.mod_eq_of_lt h]
  · rw [iterOpt_previous_eq ts ts.length i h]
    congr 2
    rw [Nat.add_mul_mod_self_left, Nat.mod_eq_of_lt h]

theorem c9_tab_cycle_witness :
    iterOpt TabState.next 3 ⟨["git", "ls", "ssh"], 1⟩ =
      some ⟨["git", "ls", "ssh"], 1⟩ ∧
    iterOpt TabState.previous 3 ⟨["git", "ls", "ssh"], 1⟩ =
      some ⟨["git", "ls", "ssh"], 1⟩ :=
  c9_tab_cycle ⟨["git", "ls", "ssh"], 1⟩ (by decide)

/-- C5 counterexample: on the spec's "ls" tab of four items with nothing
selected, `StatefulList::previous` selects index 0, not index 3. -/
theorem c5_counterexample :
    StatefulList.previous c5List "ls" ≠ some { c5List with selected := some 3 } ∧
    StatefulList.previous c5List "ls" = some { c5List with selected := some 0 } := by
  decide

/-- C5 amended: from the "none selected" state, `previous` selects index 0
(the first item), just like `next`; the backward wrap-around to the last
index n-1 happens only when index 0 is already selected on a non-empty
list. -/
theorem c5_previous_from_unselected (l : StatefulList Command) (tab : String)
    (items : List Command) (hl : assocLookup l.items tab = some items)
    (hne : items ≠ []) :
    (l.selected = none →
      StatefulList.previous l tab = some { l with selected := some 0 }) ∧
    (l.selected = some 0 →
      StatefulList.previous l tab =
        some { l with selected := some (items.length - 1) }) := by
  constructor
  · intro h
    simp only [StatefulList.previous, h]
  · intro h
    have hlen : ¬ items.length = 0 := by
      simpa using hne
    simp only [StatefulList.previous, h, hl, if_pos rfl, hlen, if_false]
    simp

theorem c5_previous_from_unselected_witness :
    StatefulList.previous c5List "ls" = some { c5List with selected := some 0 } :=
  (c5_previous_from_unselected c5List "ls"
    (c5List.items.headI.2) (by decide) (by decide)).1 (by decide)

/-- C8 counterexample: with nothing selected and a non-empty active tab,
`App::get_selected_command` returns a value (the first item), not an empty
option. -/
theorem c8_counterexample :
    c8App.commands.selected = none ∧
    App.get_selected_command c8App = some gitPullCmd := by decide

/-- C8 amended: `get_selected_command` returns the item at `selected_index()`
(the selected index, 0 when nothing is selected) of the active tab's list:
with an item index `i` selected it is the Command at index `i` of that list
(`none` modelling the panic when `i` is out of range); with no selection it
returns the first item of that list when it is non-empty; and it panics
(modelled `none`) rather than returning an empty option when the active
tab's list is empty. -/
theorem c8_selected_command (a : App) (exe : String) (items : List Command)
    (hexe : a.get_selected_executable = some exe)
    (hitems : assocLookup a.commands.items exe = some items) :
    (∀ i, a.commands.selected = some i →
      a.get_selected_command = items.get? i) ∧
    (a.commands.selected = none → a.get_selected_command = items.head?) ∧
    (items = [] → a.get_selected_command = none) := by
  refine ⟨?_, ?_, ?_⟩
  · intro i h
    simp only [App.get_selected_command, hexe, hitems,
      StatefulList.selected_index, h, Option.getD_some]
  · intro h
    simp only [App.get_selected_command, hexe, hitems,
      StatefulList.selected_index, h, Option.getD_none, List.get?_zero]
  · intro h
    subst h
    simp [App.get_selected_command, hexe, hitems]

theorem c8_selected_command_witness :
    App.get_selected_command c8App = some gitPullCmd :=
  (c8_selected_command c8App "git" [gitPullCmd] (by decide) (by decide)).2.1
    (by decide)

/-- C1 counterexample: for the non-empty raw text " ls", insert followed by
get succeeds but yields executable "" (the prefix before the first space),
while the first whitespace-delimited token of " ls" is "ls". -/
theorem c1_counterexample :
    CommandService.insert_command [] " ls" "lsa" none = .ok ([c1Cmd], c1Cmd) ∧
    CommandService.get_command [c1Cmd] " ls" "lsa" = .ok c1Cmd ∧
    firstWhitespaceToken " ls" = some "ls" ∧ c1Cmd.executable = "" := by decide

/-- C1 amended: whenever `insert_command` succeeds, `get_command` with the
same raw text succeeds and returns the inserted record, whose executable
equals the first element of splitting the raw text on the space character
(the prefix of the text before its first space), rather than the first
whitespace-delimited token. -/
theorem c1_insert_then_get (s s2 : Store) (command aliasArg : String)
    (d : Option String) (c : Command)
    (h : CommandService.insert_command s command aliasArg d = .ok (s2, c)) :
    CommandService.get_command s2 command aliasArg = .ok c ∧
    some c.executable = (splitOnSpace command).head? := by
  obtain ⟨exe, hh⟩ := splitOnSpace_head_eq_some command
  rw [CommandService.insert_command, hh] at h
  simp only at h
  split at h
  · exact absurd h (by simp)
  · rename_i s3 heq
    rw [Except.ok.injEq, Prod.mk.injEq] at h
    obtain ⟨hs2, hc⟩ := h
    subst hs2
    subst hc
    rw [CommandStorageManager.insert_command] at heq
    split at heq
    · exact absurd heq (by simp)
    · split at heq
      · exact absurd heq (by simp)
      · split at heq
        · exact absurd heq (by simp)
        · rename_i hcmd hexe halias
          rw [Except.ok.injEq] at heq
          subst heq
          constructor
          · rw [CommandService.get_command, hh]
            simp only
            rw [CommandStorageManager.get_command]
            have hfindnone :
                (s.find? (fun r => r.command == command)) = none := by
              rw [List.find?_eq_none]
              intro r hr hbeq
              apply hcmd
              rw [List.any_eq_true]
              exact ⟨r, hr, hbeq⟩
            rw [List.find?_append, hfindnone, Option.none_or]
            simp [List.find?]
          · rw [hh]

theorem c1_insert_then_get_witness :
    CommandService.get_command [c1WitnessCmd] "git pull" "gp" =
      .ok c1WitnessCmd ∧
    some c1WitnessCmd.executable = (splitOnSpace "git pull").head? :=
  c1_insert_then_get [] [c1WitnessCmd] "git pull" "gp" none c1WitnessCmd
    (by decide)

/-- C2: the NoExecutable error is unreachable.  On the empty raw text the
derived executable is the empty string (Rust split always yields at least
one piece) and every service operation proceeds to storage: on an empty
store the insert succeeds and stores a row with empty executable, the get
reaches storage and fails there with row-not-found, and the delete
succeeds. -/
theorem c2_empty_input_reaches_storage :
    CommandService.insert_command [] "" "x" none = .ok ([c2Cmd], c2Cmd) ∧
    CommandService.get_command [] "" "x" =
      .error (.storageManagerGetCommand (.openConnection .rowNotFound)) ∧
    CommandService.delete_command [] "" "x" none = .ok ([], c2Cmd) := by
  decide

/-- C4: the degenerate navigation states crash or mutate instead of being
no-ops: with zero tabs both tab transitions panic (remainder by zero,
usize underflow; modelled `none`); on an empty item list, next/previous
from the unselected state select index 0 (not a no-op) and from a selected
state they panic on the `len - 1` underflow. -/
theorem c4_empty_states_crash_or_mutate :
    TabState.next c4EmptyTabs = none ∧
    TabState.previous c4EmptyTabs = none ∧
    StatefulList.next c4EmptyList "git" =
      some { c4EmptyList with selected := some 0 } ∧
    StatefulList.previous c4EmptyList "git" =
      some { c4EmptyList with selected := some 0 } ∧
    StatefulList.next { c4EmptyList with selected := some 0 } "git" = none ∧
    StatefulList.previous { c4EmptyList with selected := some 0 } "git" = none := by
  decide

/-- C7: the tab titles are the grouping map's keys in the HashMap's own
iteration order; two admissible key orderings of the same grouping give
different title lists for the same command sequence, so the title order is
not determined by the sequence (in particular it is not always the
first-seen order the claim requires). -/
theorem c7_title_order_not_determined :
    tabTitlesWithOrder id [gitPullCmd, lsAllCmd] = ["git", "ls"] ∧
    tabTitlesWithOrder List.reverse [gitPullCmd, lsAllCmd] = ["ls", "git"] ∧
    (tabTitlesWithOrder List.reverse [gitPullCmd, lsAllCmd]).Perm
      (tabTitlesWithOrder id [gitPullCmd, lsAllCmd]) := by decide

/-- C6: under the deployed schema (UNIQUE on command, executable and alias),
inserting a record whose command text, alias, or derived executable already
occurs in the store fails with the service error wrapping the storage
uniqueness violation, and the table contents are unchanged — in particular
the store keeps exactly the one row it already had for the conflicting
value.  The executable case covers the spec's "ls -a" after "ls ."
scenario. -/
theorem c6_insert_conflict (s : Store) (command aliasArg : String)
    (d : Option String) (r : Command) (hr : r ∈ s)
    (hconf : r.command = command ∨ r.«alias» = aliasArg ∨
      some r.executable = (splitOnSpace command).head?) :
    isUniqueViolation (CommandService.insert_command s command aliasArg d) =
      true ∧
    storeAfterInsert s command aliasArg d = s := by
  obtain ⟨exe, hh⟩ := splitOnSpace_head_eq_some command
  have hresult : ∃ col,
      CommandService.insert_command s command aliasArg d =
        .error (.storageManagerInsertCommand
          (.openConnection (.uniqueViolation col))) := by
    rw [CommandService.insert_command, hh]
    simp only
    rw [CommandStorageManager.insert_command]
    by_cases h1 : (s.any fun q => q.command == command) = true
    · exact ⟨"command", by rw [if_pos h1]⟩
    · rw [if_neg h1]
      by_cases h2 : (s.any fun q => q.executable == exe) = true
      · exact ⟨"executable", by rw [if_pos h2]⟩
      · rw [if_neg h2]
        by_cases h3 : (s.any fun q => q.«alias» == aliasArg) = true
        · exact ⟨"alias", by rw [if_pos h3]⟩
        · exfalso
          rcases hconf with hc | hc | hc
          · exact h1 (List.any_eq_true.mpr ⟨r, hr, by simp [hc]⟩)
          · exact h3 (List.any_eq_true.mpr ⟨r, hr, by simp [hc]⟩)
          · rw [hh, Option.some.injEq] at hc
            exact h2 (List.any_eq_true.mpr ⟨r, hr, by simp [hc]⟩)
  obtain ⟨col, hres⟩ := hresult
  constructor
  · rw [hres]
    rfl
  · rw [storeAfterInsert, hres]

theorem c6_insert_conflict_witness :
    isUniqueViolation (CommandService.insert_command [lsDotCmd] "ls -a"
      "ls_all" none) = true ∧
    storeAfterInsert [lsDotCmd] "ls -a" "ls_all" none = [lsDotCmd] :=
  c6_insert_conflict [lsDotCmd] "ls -a" "ls_all" none lsDotCmd (by decide)
    (Or.inr (Or.inr (by decide)))

theorem assocLookup_cons {T : Type} (k1 : String) (l1 : List T)
    (rest : List (String × List T)) (k : String) :
    assocLookup ((k1, l1) :: rest) k =
      if k1 = k then some l1 else assocLookup rest k := by
  simp only [assocLookup, List.find?]
  by_cases h : k1 = k
  · simp [h]
  · have hb : (k1 == k) = false := by simp [h]
    simp [hb, h]

theorem assocLookup_insertGroup (g : List (String × List Command))
    (c : Command) (k : String) :
    assocLookup (insertGroup g c) k =
      if k = c.executable then some ((assocLookup g k).getD [] ++ [c])
      else assocLookup g k := by
  induction g with
  | nil =>
    simp only [insertGroup]
    rw [assocLookup_cons]
    by_cases h : k = c.executable
    · rw [if_pos h.symm, if_pos h]
      rfl
    · rw [if_neg (fun he => h he.symm), if_neg h]
  | cons kv rest ih =>
    obtain ⟨k1, l1⟩ := kv
    simp only [insertGroup]
    by_cases h1 : k1 = c.executable
    · rw [if_pos h1, assocLookup_cons, assocLookup_cons]
      by_cases h : k1 = k
      · rw [if_pos h, if_pos h, if_pos (h.symm.trans h1)]
        rfl
      · rw [if_neg h, if_neg h,
          if_neg (fun he : k = c.executable => h (h1.trans he.symm))]
    · rw [if_neg h1, assocLookup_cons, assocLookup_cons]
      by_cases h : k1 = k
      · rw [if_pos h, if_pos h,
          if_neg (fun he : k = c.executable => h1 (h.trans he))]
      · rw [if_neg h, if_neg h]
        exact ih

theorem lookupD_foldl (cmds : List Command) :
    ∀ (g : List (String × List Command)) (k : String),
      (assocLookup (cmds.foldl insertGroup g) k).getD [] =
        (assocLookup g k).getD [] ++
          cmds.filter (fun c => c.executable == k) := by
  induction cmds with
  | nil =>
    intro g k
    simp
  | cons c cs ih =>
    intro g k
    rw [List.foldl_cons, ih, assocLookup_insertGroup]
    by_cases h : k = c.executable
    · rw [if_pos h]
      have hb : (c.executable == k) = true := by simp [h.symm]
      simp [List.filter_cons, hb]
    · rw [if_neg h]
      have hb : (c.executable == k) = false := by
        simp
        exact fun he => h he.symm
      simp [List.filter_cons, hb]

theorem assocLookup_foldl_none (cmds : List Command) :
    ∀ (g : List (String × List Command)) (k : String),
      assocLookup (cmds.foldl insertGroup g) k = none ↔
        (assocLookup g k = none ∧
          cmds.filter (fun c => c.executable == k) = []) := by
  induction cmds with
  | nil =>
    intro g k
    simp
  | cons c cs ih =>
    intro g k
    rw [List.foldl_cons, ih, assocLookup_insertGroup]
    by_cases h : k = c.executable
    · rw [if_pos h]
      have hb : (c.executable == k) = true := by simp [h.symm]
      simp [List.filter_cons, hb]
    · rw [if_neg h]
      have hb : (c.executable == k) = false := by
        simp
        exact fun he => h he.symm
      simp [List.filter_cons, hb]

theorem groupSizes_insertGroup (g : List (String × List Command))
    (c : Command) :
    groupSizes (insertGroup g c) = groupSizes g + 1 := by
  induction g with
  | nil =>
    simp [insertGroup, groupSizes]
  | cons kv rest ih =>
    obtain ⟨k1, l1⟩ := kv
    simp only [insertGroup]
    by_cases h : k1 = c.executable
    · rw [if_pos h]
      simp [groupSizes]
      omega
    · rw [if_neg h]
      simp only [groupSizes, List.map_cons, List.sum_cons] at ih ⊢
      omega

theorem groupSizes_foldl (cmds : List Command) :
    ∀ g, groupSizes (cmds.foldl insertGroup g) =
      groupSizes g + cmds.length := by
  induction cmds with
  | nil =>
    intro g
    simp
  | cons c cs ih =>
    intro g
    rw [List.foldl_cons, ih, groupSizes_insertGroup, List.length_cons]
    omega

/-- C10: the grouping map built in `App::new` partitions the command
sequence returned by `get_all_commands`: the list stored under each present
key is exactly the subsequence of commands whose executable equals that key
(hence non-empty, and every command of the sequence occurs exactly in its
own key's list and in no other); keys that are absent match no command; and
the per-key list sizes add up to the length of the input sequence. -/
theorem c10_grouping_partitions (cmds : List Command) :
    (∀ k l, assocLookup (groupByExec cmds) k = some l →
        l = cmds.filter (fun c => c.executable == k) ∧ l ≠ []) ∧
    (∀ k, assocLookup (groupByExec cmds) k = none →
        cmds.filter (fun c => c.executable == k) = []) ∧
    groupSizes (groupByExec cmds) = cmds.length := by
  refine ⟨?_, ?_, ?_⟩
  · intro k l hsome
    have hd := lookupD_foldl cmds [] k
    rw [← groupByExec, hsome] at hd
    simp only [Option.getD_some] at hd
    have hfil : l = cmds.filter (fun c => c.executable == k) := by
      simpa using hd
    refine ⟨hfil, ?_⟩
    intro hl
    have hempty : cmds.filter (fun c => c.executable == k) = [] := by
      rw [← hfil, hl]
    have hnone := (assocLookup_foldl_none cmds [] k).mpr ⟨rfl, hempty⟩
    rw [← groupByExec, hsome] at hnone
    exact Option.noConfusion hnone
  · intro k hnone
    rw [groupByExec] at hnone
    exact ((assocLookup_foldl_none cmds [] k).mp hnone).2
  · rw [groupByExec, groupSizes_foldl cmds []]
    simp [groupSizes]

theorem c10_grouping_partitions_witness :
    [lsAllCmd, lsDotCmd] =
      ([gitPullCmd, lsAllCmd, lsDotCmd].filter
        (fun c => c.executable == "ls")) ∧
    [lsAllCmd, lsDotCmd] ≠ [] :=
  (c10_grouping_partitions [gitPullCmd, lsAllCmd, lsDotCmd]).1 "ls"
    [lsAllCmd, lsDotCmd] (by decide)
